import Mathlib

/-!
Verification of the PDF-translation pipeline (`src/all.py`) against its
natural-language specification.  The Python source is shallowly embedded:
pure computations become Lean functions, file-system and lock effects become
explicit state parameters, and machine integers are `Nat` reduced mod `2^32`
where the source's operations wrap.
-/

set_option maxRecDepth 4000

namespace PdfTranslate

/-! ## Bytes and MD5

`CacheManager.get_translation`/`store_translation` key the cache by
`hashlib.md5(text.encode()).hexdigest()`.  We embed `str.encode()` (UTF-8)
and the MD5 digest (RFC 1321) over byte lists, with 32-bit words as `Nat`
reduced mod `2^32`. -/

/-- UTF-8 encoding of one character (`str.encode()` on a single code point). -/
def encodeCharUtf8 (c : Char) : List Nat :=
  let n := c.toNat
  if n < 128 then [n]
  else if n < 2048 then
    [192 ||| (n >>> 6), 128 ||| (n &&& 63)]
  else if n < 65536 then
    [224 ||| (n >>> 12), 128 ||| ((n >>> 6) &&& 63), 128 ||| (n &&& 63)]
  else
    [240 ||| (n >>> 18), 128 ||| ((n >>> 12) &&& 63),
     128 ||| ((n >>> 6) &&& 63), 128 ||| (n &&& 63)]

/-- UTF-8 bytes of a string: Python's `text.encode()`. -/
def utf8Bytes (s : String) : List Nat :=
  (s.data.map encodeCharUtf8).flatten

/-- Addition of 32-bit words (wrapping). -/
def add32 (a b : Nat) : Nat := (a + b) % 4294967296

/-- Bitwise complement of a 32-bit word. -/
def not32 (a : Nat) : Nat := a ^^^ 4294967295

/-- Left-rotation of a 32-bit word by `n` (0 ≤ n < 32). -/
def rotl32 (a n : Nat) : Nat :=
  ((a <<< n) ||| (a >>> (32 - n))) % 4294967296

/-- The 64 MD5 sine-derived constants `K[i]` (RFC 1321). -/
def md5K : List Nat :=
  [0xd76aa478, 0xe8c7b756, 0x242070db, 0xc1bdceee,
   0xf57c0faf, 0x4787c62a, 0xa8304613, 0xfd469501,
   0x698098d8, 0x8b44f7af, 0xffff5bb1, 0x895cd7be,
   0x6b901122, 0xfd987193, 0xa679438e, 0x49b40821,
   0xf61e2562, 0xc040b340, 0x265e5a51, 0xe9b6c7aa,
   0xd62f105d, 0x02441453, 0xd8a1e681, 0xe7d3fbc8,
   0x21e1cde6, 0xc33707d6, 0xf4d50d87, 0x455a14ed,
   0xa9e3e905, 0xfcefa3f8, 0x676f02d9, 0x8d2a4c8a,
   0xfffa3942, 0x8771f681, 0x6d9d6122, 0xfde5380c,
   0xa4beea44, 0x4bdecfa9, 0xf6bb4b60, 0xbebfbc70,
   0x289b7ec6, 0xeaa127fa, 0xd4ef3085, 0x04881d05,
   0xd9d4d039, 0xe6db99e5, 0x1fa27cf8, 0xc4ac5665,
   0xf4292244, 0x432aff97, 0xab9423a7, 0xfc93a039,
   0x655b59c3, 0x8f0ccc92, 0xffeff47d, 0x85845dd1,
   0x6fa87e4f, 0xfe2ce6e0, 0xa3014314, 0x4e0811a1,
   0xf7537e82, 0xbd3af235, 0x2ad7d2bb, 0xeb86d391]

/-- Per-round left-rotation amounts `s[i]`. -/
def md5S (i : Nat) : Nat :=
  (if i < 16 then [7, 12, 17, 22]
   else if i < 32 then [5, 9, 14, 20]
   else if i < 48 then [4, 11, 16, 23]
   else [6, 10, 15, 21]).getD (i % 4) 0

/-- The round function `F`/`G`/`H`/`I` selected by the round index. -/
def md5F (i b c d : Nat) : Nat :=
  if i < 16 then (b &&& c) ||| (not32 b &&& d)
  else if i < 32 then (d &&& b) ||| (not32 d &&& c)
  else if i < 48 then b ^^^ c ^^^ d
  else c ^^^ (b ||| not32 d)

/-- Message-word index used at round `i`. -/
def md5G (i : Nat) : Nat :=
  if i < 16 then i
  else if i < 32 then (5 * i + 1) % 16
  else if i < 48 then (3 * i + 5) % 16
  else (7 * i) % 16

/-- Little-endian 32-bit word at word-offset `g` of a 64-byte chunk. -/
def md5Word (chunk : List Nat) (g : Nat) : Nat :=
  chunk.getD (4 * g) 0 + (chunk.getD (4 * g + 1) 0 <<< 8) +
    (chunk.getD (4 * g + 2) 0 <<< 16) + (chunk.getD (4 * g + 3) 0 <<< 24)

/-- One MD5 operation (round `i`) on state `(a, b, c, d)`. -/
def md5Step (chunk : List Nat) (st : Nat × Nat × Nat × Nat) (i : Nat) :
    Nat × Nat × Nat × Nat :=
  let a := st.1; let b := st.2.1; let c := st.2.2.1; let d := st.2.2.2
  let f := add32 (add32 (add32 (md5F i b c d) a) (md5K.getD i 0))
    (md5Word chunk (md5G i))
  (d, add32 b (rotl32 f (md5S i)), b, c)

/-- Process one 64-byte chunk, adding the mixed state back in. -/
def md5Chunk (st : Nat × Nat × Nat × Nat) (chunk : List Nat) :
    Nat × Nat × Nat × Nat :=
  let r := (List.range 64).foldl (md5Step chunk) st
  (add32 st.1 r.1, add32 st.2.1 r.2.1, add32 st.2.2.1 r.2.2.1,
   add32 st.2.2.2 r.2.2.2)

/-- `n` as `k` little-endian bytes. -/
def leBytes (k n : Nat) : List Nat :=
  (List.range k).map fun i => (n >>> (8 * i)) % 256

/-- MD5 padding: `0x80`, zeros to 56 mod 64, then the 64-bit bit length. -/
def md5Pad (msg : List Nat) : List Nat :=
  let zeros := (64 + 56 - (msg.length + 1) % 64) % 64
  msg ++ [128] ++ List.replicate zeros 0 ++ leBytes 8 (msg.length * 8)

/-- MD5 digest of a byte list, as 16 bytes. -/
def md5Digest (msg : List Nat) : List Nat :=
  let padded := md5Pad msg
  let chunks := (List.range (padded.length / 64)).map
    fun i => (padded.drop (64 * i)).take 64
  let st := chunks.foldl md5Chunk
    (0x67452301, 0xefcdab89, 0x98badcfe, 0x10325476)
  leBytes 4 st.1 ++ leBytes 4 st.2.1 ++ leBytes 4 st.2.2.1 ++ leBytes 4 st.2.2.2

/-- Lower-case hex digit: `0`–`9` then `a`–`f`. -/
def hexDigit (n : Nat) : Char :=
  if n < 10 then Char.ofNat (48 + n) else Char.ofNat (87 + n)

/-- `hashlib.md5(text.encode()).hexdigest()`: the 32-character hex digest. -/
def md5Hex (text : String) : String :=
  String.mk (((md5Digest (utf8Bytes text)).map
    fun b => [hexDigit (b / 16), hexDigit (b % 16)]).flatten)

example : md5Hex "" = "d41d8cd98f00b204e9800998ecf8427e" := by decide
example : md5Hex "a" = "0cc175b9c0f1b6a831c399e269772661" := by decide

/-! ## CacheManager

`CacheManager` keeps `self.cache`, a Python dict from the md5 hex digest of
the raw text to its translation, backed by `cache/translations.json`, with
a single non-reentrant `threading.Lock` (`self.lock`).  The dict is embedded
as an association list in insertion order; the file system as an
`Option String` (the cache file's content, `none` when absent); lock state
as a `Bool` saying whether the current thread already holds `self.lock`. -/

/-- Python dict membership-respecting read `m.get(k)`: first matching key. -/
def dictGet : List (String × String) → String → Option String
  | [], _ => none
  | kv :: m, k => if kv.1 = k then some kv.2 else dictGet m k

/-- Python dict write `m[k] = v`: overwrite in place, else append. -/
def dictSet : List (String × String) → String → String → List (String × String)
  | [], k, v => [(k, v)]
  | kv :: m, k, v =>
    if kv.1 = k then (kv.1, v) :: m else kv :: dictSet m k v

/-- `json.dump` of the cache dict (`indent=4`): the exact escaping of
`json` is irrelevant to every claim, so values are emitted unescaped;
keys are md5 hex digests and never need escaping. -/
def serializeCache : List (String × String) → String
  | [] => "\x7b\x7d"
  | m => "\x7b\n" ++ String.intercalate ",\n"
      (m.map fun kv => "    \"" ++ kv.1 ++ "\": \"" ++ kv.2 ++ "\"") ++ "\n\x7d"

/-- `CacheManager.load_cache` (src/all.py:136-145): `fileExists` models
`self.cache_file.exists()`, `readable` whether `open`/read raises, and
`parsed` the result of `json.load` (`none` = parse error).  Every raised
error is caught and yields the empty dict. -/
def load_cache (fileExists readable : Bool)
    (parsed : Option (List (String × String))) : List (String × String) :=
  if fileExists then
    if readable then
      match parsed with
      | some m => m
      | none => []
    else []
  else []

/-- `CacheManager.__init__` (src/all.py:129-134): the in-memory cache is
whatever `load_cache` returns; construction itself cannot raise on any
cache-file state. -/
structure CacheManager where
  cache : List (String × String)

def CacheManager.init (fileExists readable : Bool)
    (parsed : Option (List (String × String))) : CacheManager :=
  ⟨load_cache fileExists readable parsed⟩

/-- `CacheManager.save_cache` (src/all.py:147-156).  `lockHeld` says whether
the calling thread already holds `self.lock`; `with self.lock:` on a held
non-reentrant `threading.Lock` blocks forever (no other code path releases
a lock it does not hold), modelled as `none`.  Otherwise the file is opened
with mode `w` (truncating in place — no temporary file), and `failAt k`
models an I/O error after `k` characters were written: the exception is
caught and `False` returned, the file left holding the partial prefix. -/
def save_cache (lockHeld : Bool) (cache : List (String × String))
    (disk : Option String) (failAt : Option Nat) :
    Option (Bool × Option String) :=
  if lockHeld then none
  else
    match failAt with
    | none => some (true, some (serializeCache cache))
    | some k => some (false, some ((serializeCache cache).take k))

/-- `CacheManager.get_translation` (src/all.py:158-161): look up the md5
hex digest of the raw text. -/
def get_translation (cache : List (String × String)) (text : String) :
    Option String :=
  dictGet cache (md5Hex text)

/-- The in-memory effect of `CacheManager.store_translation`'s body
(src/all.py:167-168): `self.cache[md5(text)] = translation`. -/
def store_translation_update (cache : List (String × String))
    (text translation : String) : List (String × String) :=
  dictSet cache (md5Hex text) translation

/-- `CacheManager.store_translation` (src/all.py:163-172): under
`with self.lock:` the dict is updated, then `self.save_cache()` is called
with the lock still held.  Result: (completion status — `none` when the
call never returns, `some b` when it returns `b` —, in-memory cache after
the call's mutations, cache-file content after the call). -/
def store_translation (cache : List (String × String))
    (text translation : String) (disk : Option String)
    (failAt : Option Nat) : Option Bool × List (String × String) × Option String :=
  let cache' := dictSet cache (md5Hex text) translation
  match save_cache true cache' disk failAt with
  | none => (none, cache', disk)
  | some r => (some r.1, cache', r.2)

/-! ## ConfigManager

`ConfigManager.load_config` (src/all.py:62-100) builds `default_config` and,
when `config.json` exists and parses, returns the Python dict merge
`\x7b**default_config, **loaded_config\x7d`; on any exception it returns the
defaults.  JSON values are embedded as `JValue`, dicts as association lists
in insertion order. -/

inductive JValue where
  | str (s : String)
  | num (n : Int)
  | bool (b : Bool)
  | arr (xs : List JValue)
  | obj (kvs : List (String × JValue))

/-- Python dict read on a JSON object: first matching key. -/
def jLookup : List (String × JValue) → String → Option JValue
  | [], _ => none
  | kv :: m, k => if kv.1 = k then some kv.2 else jLookup m k

/-- The `default_config` literal of `ConfigManager.load_config`
(src/all.py:64-89). -/
def default_config : List (String × JValue) :=
  [("font_paths", .arr
      [.str "/usr/share/fonts/truetype/fonts-arabeyes/ae_AlArabiya.ttf",
       .str "/usr/share/fonts/truetype/fonts-arabeyes/ae_Furat.ttf",
       .str "/usr/local/share/fonts/Amiri-Regular.ttf",
       .str "./fonts/Amiri-Regular.ttf"]),
   ("font_urls", .obj
      [("Amiri-Regular.ttf",
        .str "https://github.com/google/fonts/raw/main/ofl/amiri/Amiri-Regular.ttf"),
       ("ae_AlArabiya.ttf",
        .str "https://github.com/fonts-arabeyes/ae_fonts/raw/master/ae_fonts_1.1/Fonts/TrueType/ae_AlArabiya.ttf")]),
   ("tesseract_config", .obj
      [("lang", .str "ara+eng"), ("config", .str "--psm 3")]),
   ("translation", .obj
      [("batch_size", .num 10), ("timeout", .num 30), ("retries", .num 3)]),
   ("output", .obj
      [("dpi", .num 300), ("quality", .num 95), ("format", .str "PDF")])]

/-- Python `\x7b**d, **l\x7d`: the keys of `d` in order, each carrying `l`'s
value when `l` also binds the key, followed by the keys of `l` absent from
`d`, in `l`'s order. -/
def pyMerge (d l : List (String × JValue)) : List (String × JValue) :=
  (d.map fun kv => (kv.1, (jLookup l kv.1).getD kv.2)) ++
    l.filter fun kv => (jLookup d kv.1).isNone

/-- `ConfigManager.load_config` (src/all.py:62-100): `fileExists` models
`self.config_path.exists()`; `parsed` the result of `open` + `json.load`
(`none` = I/O or parse error, caught, falling back to the defaults). -/
def load_config (fileExists : Bool)
    (parsed : Option (List (String × JValue))) : List (String × JValue) :=
  if fileExists then
    match parsed with
    | some loaded => pyMerge default_config loaded
    | none => default_config
  else default_config

/-! ## FontManager

`FontManager` (src/all.py:185-315).  File-system, font-registry and network
outcomes are environment parameters; `loaded` is `self.loaded_fonts`. -/

structure FontEnv where
  /-- the `font_paths` config list -/
  font_paths : List String
  /-- the `font_urls` config dict, in iteration order -/
  font_urls : List (String × String)
  /-- `Path(p).exists()` -/
  pathExists : String → Bool
  /-- membership in `pdfmetrics.getRegisteredFontNames()` -/
  registered : String → Bool
  /-- whether `pdfmetrics.registerFont(TTFont(name, path))` succeeds -/
  registerOk : String → Bool
  /-- whether `download_font(name, url)` succeeds (the network request is
  issued either way) -/
  downloadOk : String → Bool

/-- Python `Path(p).stem`: final path component minus its last suffix. -/
def pathStem (p : String) : String :=
  let base := (p.splitOn "/").getLastD p
  let parts := base.splitOn "."
  if parts.length ≥ 2 then String.intercalate "." parts.dropLast else base

/-- `FontManager.load_font` (src/all.py:275-287): returns success and the
updated `self.loaded_fonts` (appended only when a new font registers). -/
def load_font (env : FontEnv) (loaded : List String) (path : String) :
    Bool × List String :=
  let name := "Arabic_" ++ pathStem path
  if env.registered name then (true, loaded)
  else if env.registerOk path then (true, loaded ++ [path])
  else (false, loaded)

/-- The local-font loop of `initialize_fonts` (src/all.py:293-296): first
existing path that `load_font` accepts returns `True` immediately. -/
def localFontsLoop (env : FontEnv) (loaded : List String) :
    List String → Bool × List String
  | [] => (false, loaded)
  | p :: ps =>
    if env.pathExists p then
      let r := load_font env loaded p
      if r.1 then (true, r.2) else localFontsLoop env r.2 ps
    else localFontsLoop env loaded ps

/-- The download loop of `initialize_fonts` (src/all.py:299-305): every
iteration issues a network download (`download_font`); a successful
download followed by a successful `load_font` returns `True` immediately.
Result: (early `True` return, `self.loaded_fonts`, names for which a
download was performed). -/
def downloadFontsLoop (env : FontEnv) (loaded : List String) :
    List (String × String) → Bool × List String × List String
  | [] => (false, loaded, [])
  | nu :: rest =>
    if env.downloadOk nu.1 then
      let r := load_font env loaded ("fonts/" ++ nu.1)
      if r.1 then (true, r.2, [nu.1])
      else
        let t := downloadFontsLoop env r.2 rest
        (t.1, t.2.1, nu.1 :: t.2.2)
    else
      let t := downloadFontsLoop env loaded rest
      (t.1, t.2.1, nu.1 :: t.2.2)

/-- `FontManager.initialize_fonts` (src/all.py:289-311): try the configured
local paths; if `self.loaded_fonts` is still empty, download fonts from the
configured URLs and try to load each.  Result: (return value, names for
which a network download was performed). -/
def initialize_fonts (env : FontEnv) : Bool × List String :=
  let lcl := localFontsLoop env [] env.font_paths
  if lcl.1 then (true, [])
  else if lcl.2.isEmpty then
    let t := downloadFontsLoop env lcl.2 env.font_urls
    if t.1 then (true, t.2.2) else (!t.2.1.isEmpty, t.2.2)
  else (!lcl.2.isEmpty, [])

/-! ## TranslationScheduler

Modelled from the spec: the source's `TranslationProcessor` (src/all.py:323)
is an empty stub, so the scheduler is taken from §4.4 of the spec: `run`
submits every extracted `TextUnit` exactly once, awaits all results, and a
unit whose translation errors still yields a `TranslationResult` carrying
the unit's own `source_text`.  A result is tagged with the unit's identity:
page index plus ordinal within the page (§3, `TranslationResult`).  Only
the identity-relevant attributes of `TextUnit` are carried. -/

structure TextUnit where
  page_index : Nat
  source_text : String
deriving Inhabited

structure TranslationResult where
  page_index : Nat
  ordinal : Nat
  translated_text : String
  from_cache : Bool
deriving Inhabited

/-- The identity a result is associated by: page index + in-page ordinal. -/
def TranslationResult.resultId (r : TranslationResult) : Nat × Nat :=
  (r.page_index, r.ordinal)

/-- Ordinal of unit `i` within its page: how many earlier units share its
page index. -/
def unitOrdinal (units : List TextUnit) (i : Nat) : Nat :=
  (units.take i).countP fun v =>
    v.page_index == (units.getD i default).page_index

/-- Modelled from the spec (§4.4): `TranslationScheduler.run`.  `translate`
is the worker's call into the `Translator` — `some (text, fromCache)` on
success, `none` when translation ultimately errors; an erroring unit falls
back to its own `source_text`. -/
def TranslationScheduler.run (translate : TextUnit → Option (String × Bool))
    (units : List TextUnit) : List TranslationResult :=
  (List.range units.length).map fun i =>
    let u := units.getD i default
    match translate u with
    | some tv => ⟨u.page_index, unitOrdinal units i, tv.1, tv.2⟩
    | none => ⟨u.page_index, unitOrdinal units i, u.source_text, false⟩

/-! ## ScriptShaper (ArabicTextProcessor)

Modelled from the spec: the source's `ArabicTextProcessor` (src/all.py:335)
is an empty stub, so the shaper is taken from §4.5 of the spec (and the
source's imports `arabic_reshaper` / `bidi.algorithm.get_display`):
contextual joining-form substitution with lam-alef ligature composition,
then bidirectional reordering that reverses each right-to-left run.  The
`history` field stands for any per-instance hidden state an implementation
might keep; per the spec, `shape` consults none of it. -/

/-- Arabic block (U+0600–U+06FF). -/
def isArabicChar (c : Char) : Bool :=
  1536 ≤ c.toNat && c.toNat ≤ 1791

/-- Whether a character joins to the following letter (dual-joining);
right-joining-only and non-joining Arabic letters do not. -/
def joinsToNext (c : Char) : Bool :=
  isArabicChar c &&
    !([0x621, 0x622, 0x623, 0x624, 0x625, 0x627, 0x629,
       0x62F, 0x630, 0x631, 0x632, 0x648].contains c.toNat)

/-- Whether a character accepts a join from the preceding letter. -/
def joinsToPrev (c : Char) : Bool :=
  isArabicChar c && c.toNat ≠ 0x621

/-- Contextual joining forms (§4.5 step 1). -/
inductive ArabicForm where
  | isolated | final | initial | medial

/-- Unicode presentation form of a letter in a given joining form, for the
letters the model tables; letters outside the table keep their base code
point.  Each row: base, isolated, final, initial, medial. -/
def arabicFormsTable : List (Nat × Nat × Nat × Nat × Nat) :=
  [(0x627, 0xFE8D, 0xFE8E, 0xFE8D, 0xFE8E),
   (0x628, 0xFE8F, 0xFE90, 0xFE91, 0xFE92),
   (0x62A, 0xFE95, 0xFE96, 0xFE97, 0xFE98),
   (0x633, 0xFEB1, 0xFEB2, 0xFEB3, 0xFEB4),
   (0x644, 0xFEDD, 0xFEDE, 0xFEDF, 0xFEE0),
   (0x645, 0xFEE1, 0xFEE2, 0xFEE3, 0xFEE4),
   (0x646, 0xFEE5, 0xFEE6, 0xFEE7, 0xFEE8),
   (0x647, 0xFEE9, 0xFEEA, 0xFEEB, 0xFEEC),
   (0x648, 0xFEED, 0xFEEE, 0xFEED, 0xFEEE),
   (0x64A, 0xFEF1, 0xFEF2, 0xFEF3, 0xFEF4)]

def presentForm (c : Char) (f : ArabicForm) : Char :=
  match arabicFormsTable.find? (fun row => row.1 == c.toNat) with
  | none => c
  | some row =>
    Char.ofNat <|
      match f with
      | .isolated => row.2.1
      | .final => row.2.2.1
      | .initial => row.2.2.2.1
      | .medial => row.2.2.2.2

/-- Joining form of `c` given whether it connects to the previous and to
the next letter. -/
def formOf (connPrev connNext : Bool) : ArabicForm :=
  match connPrev, connNext with
  | true, true => .medial
  | false, true => .initial
  | true, false => .final
  | false, false => .isolated

/-- Contextual reshaping of a character list; `prev` is the preceding
character, if any.  The lam-alef pair composes into its ligature. -/
def reshapeChars : Option Char → List Char → List Char
  | _, [] => []
  | prev, c :: c₂ :: cs =>
    let connPrev := (prev.map joinsToNext).getD false && joinsToPrev c
    if c.toNat == 0x644 && c₂.toNat == 0x627 then
      (if connPrev then Char.ofNat 0xFEFC else Char.ofNat 0xFEFB) ::
        reshapeChars (some c₂) cs
    else
      presentForm c (formOf connPrev (joinsToNext c && joinsToPrev c₂)) ::
        reshapeChars (some c) (c₂ :: cs)
  | prev, [c] =>
    let connPrev := (prev.map joinsToNext).getD false && joinsToPrev c
    [presentForm c (formOf connPrev false)]

/-- Right-to-left characters: the Arabic block and its presentation forms. -/
def isRtlChar (c : Char) : Bool :=
  isArabicChar c || (0xFB50 ≤ c.toNat && c.toNat ≤ 0xFEFF)

/-- Maximal directional runs (§4.5 step 2), each tagged right-to-left or
not. -/
def splitRuns : List Char → List (Bool × List Char)
  | [] => []
  | c :: cs =>
    match splitRuns cs with
    | [] => [(isRtlChar c, [c])]
    | (b, run) :: rest =>
      if isRtlChar c == b then (b, c :: run) :: rest
      else (isRtlChar c, [c]) :: (b, run) :: rest

/-- Bidirectional reordering: reverse each right-to-left run's visual
order, keep left-to-right runs intact, interleave in paragraph order. -/
def bidiDisplay (l : List Char) : List Char :=
  ((splitRuns l).map fun br => if br.1 then br.2.reverse else br.2).flatten

/-- Modelled from the spec: the `ScriptShaper` (`ArabicTextProcessor`);
`history` stands for per-instance hidden state, unused by `shape`. -/
structure ArabicTextProcessor where
  history : List String := []

/-- `ScriptShaper.shape` (§4.5): contextual reshaping then bidirectional
reordering; a pure function of the text alone. -/
def ArabicTextProcessor.shape (_p : ArabicTextProcessor) (text : String) :
    String :=
  String.mk (bidiDisplay (reshapeChars none text.data))

/-! ## Helper lemmas -/

theorem dictGet_dictSet_self (m : List (String × String)) (k v : String) :
    dictGet (dictSet m k v) k = some v := by
  induction m with
  | nil => simp [dictSet, dictGet]
  | cons kv m ih =>
    by_cases h : kv.1 = k
    · simp [dictSet, dictGet, h]
    · simp [dictSet, dictGet, h, ih]

/-! ## Claim theorems -/

/-- Claim C2: the claim that `CacheManager.store_translation` terminates
and returns a boolean, with the lock released on every exit path, fails on
the code: the body acquires `self.lock` and then calls `self.save_cache()`,
which tries to acquire the same non-reentrant `threading.Lock` again, so
for every cache state, text, translation and disk outcome the call blocks
forever inside the durable-write step and never returns. -/
theorem store_translation_never_returns (cache : List (String × String))
    (text translation : String) (disk : Option String)
    (failAt : Option Nat) :
    (store_translation cache text translation disk failAt).1 = none := by
  simp [store_translation, save_cache]

/-- Claim C3: the in-memory mapping relation of the cache put/get pair:
after `store_translation(t, v)`'s dict update, `get_translation(t)`
returns `v` — unconditionally, hence in particular whenever the call
succeeds. -/
theorem store_translation_then_get (cache : List (String × String))
    (text translation : String) (disk : Option String)
    (failAt : Option Nat) :
    get_translation
        (store_translation cache text translation disk failAt).2.1 text =
      some translation := by
  have : (store_translation cache text translation disk failAt).2.1 =
      dictSet cache (md5Hex text) translation := by
    simp [store_translation, save_cache]
  rw [this]
  exact dictGet_dictSet_self cache (md5Hex text) translation

/-- Claim C4, counterexample: the cache key is not a hash of
whitespace-trimmed text.  `"a "` and `"a"` differ only in trailing
whitespace, yet storing under `"a "` is invisible to a lookup of `"a"`:
the two texts address different cache entries. -/
theorem cache_key_not_whitespace_normalized :
    get_translation (store_translation_update [] "a " "X") "a" = none ∧
      md5Hex "a " ≠ md5Hex "a" := by
  constructor <;> decide

/-- Claim C4, amended: the cache key is the md5 of the raw, un-normalized
text: the same text always addresses the same entry, while texts differing
only in leading/trailing whitespace — and likewise texts differing in
letter case — address different entries. -/
theorem cache_key_raw_text :
    (∀ (cache : List (String × String)) (t v : String),
        get_translation (store_translation_update cache t v) t = some v) ∧
      (∀ v : String,
        get_translation (store_translation_update [] "a " v) "a" = none) ∧
      (∀ v : String,
        get_translation (store_translation_update [] "a" v) "A" = none) := by
  refine ⟨fun cache t v => dictGet_dictSet_self cache (md5Hex t) v,
    fun v => ?_, fun v => ?_⟩
  · simp [get_translation, store_translation_update, dictSet, dictGet,
      show ¬(md5Hex "a " = md5Hex "a") by decide]
  · simp [get_translation, store_translation_update, dictSet, dictGet,
      show ¬(md5Hex "a" = md5Hex "A") by decide]

/-- Claim C5: the claim that a failed durable write makes
`store_translation` return `success=false` fails on the code: for every
input — in particular when the durable write would fail — the call hangs
forever on the nested lock acquisition inside `save_cache` and never
returns `false`; the in-memory update has however already been applied
when it hangs, and a concurrent `get_translation` of the same text does
return the stored translation. -/
theorem store_translation_hangs_but_memory_updated
    (cache : List (String × String)) (text translation : String)
    (disk : Option String) (failAt : Option Nat) :
    (store_translation cache text translation disk failAt).1 = none ∧
      get_translation
          (store_translation cache text translation disk failAt).2.1 text =
        some translation := by
  have h : store_translation cache text translation disk failAt =
      (none, dictSet cache (md5Hex text) translation, disk) := by
    simp [store_translation, save_cache]
  rw [h]
  exact ⟨rfl, dictGet_dictSet_self cache (md5Hex text) translation⟩

/-- Claim C6, counterexample: `save_cache` does not write to a temporary
file with an atomic replace; it opens the cache file itself with mode `w`,
truncating it.  With one entry persisted on disk, a write that fails
immediately after the truncation leaves the file empty: the on-disk
mapping read back afterwards is not the mapping before the failed write. -/
theorem save_cache_partial_failure_loses_entries :
    save_cache false [("a", "b")]
        (some (serializeCache [("k", "v")])) (some 0) =
      some (false, some "") ∧
      some "" ≠ some (serializeCache [("k", "v")]) := by
  constructor <;> decide

/-- Claim C6, amended: `save_cache` writes the new serialization in place
over the cache file (truncating it, no temporary file): a successful write
leaves exactly the new serialization and returns `true`; a write failing
after `k` characters returns `false` and leaves the file holding the
partial prefix of the new data — and in neither case does the previous
on-disk content influence the outcome. -/
theorem save_cache_writes_in_place (cache : List (String × String))
    (disk disk₂ : Option String) (k : Nat) :
    save_cache false cache disk none =
        some (true, some (serializeCache cache)) ∧
      save_cache false cache disk (some k) =
        some (false, some ((serializeCache cache).take k)) ∧
      save_cache false cache disk (some k) =
        save_cache false cache disk₂ (some k) := by
  exact ⟨rfl, rfl, rfl⟩

/-- Claim C7: for every cache-file state at startup in which the file is
missing, unreadable, or unparseable, `load_cache` returns the empty
mapping (it catches every error rather than raising), and `CacheManager`
initialization yields an empty in-memory cache instead of failing. -/
theorem load_cache_degrades_to_empty :
    ∀ (readable : Bool) (parsed : Option (List (String × String))),
      load_cache false readable parsed = [] ∧
        load_cache true false parsed = [] ∧
        load_cache true true none = [] ∧
        (CacheManager.init false readable parsed).cache = [] ∧
        (CacheManager.init true false parsed).cache = [] ∧
        (CacheManager.init true true none).cache = [] := by
  intro readable parsed
  exact ⟨rfl, rfl, rfl, rfl, rfl, rfl⟩

/-- An environment in which none of the configured local font paths
exists, no font is pre-registered, and registration and downloads
succeed. -/
def noLocalFontsEnv : FontEnv where
  font_paths :=
    ["/usr/share/fonts/truetype/fonts-arabeyes/ae_AlArabiya.ttf",
     "/usr/share/fonts/truetype/fonts-arabeyes/ae_Furat.ttf",
     "/usr/local/share/fonts/Amiri-Regular.ttf",
     "./fonts/Amiri-Regular.ttf"]
  font_urls :=
    [("Amiri-Regular.ttf",
      "https://github.com/google/fonts/raw/main/ofl/amiri/Amiri-Regular.ttf"),
     ("ae_AlArabiya.ttf",
      "https://github.com/fonts-arabeyes/ae_fonts/raw/master/ae_fonts_1.1/Fonts/TrueType/ae_AlArabiya.ttf")]
  pathExists := fun _ => false
  registered := fun _ => false
  registerOk := fun _ => true
  downloadOk := fun _ => true

/-- Claim C8, counterexample: with the default configuration on a machine
with no resolvable local font, `FontManager.initialize_fonts` itself
downloads a font from the network (the Amiri font from its configured
URL): the core does perform font acquisition. -/
theorem initialize_fonts_downloads_from_network :
    initialize_fonts noLocalFontsEnv = (true, ["Amiri-Regular.ttf"]) ∧
      (initialize_fonts noLocalFontsEnv).2 ≠ [] := by
  constructor <;> decide

/-- Claim C8, amended: `initialize_fonts` consumes fonts already
resolvable on disk only when some configured local font path exists and
loads — in that case it returns `True` having downloaded nothing; when no
local font path loads it falls back to downloading fonts from the
configured URLs itself. -/
theorem initialize_fonts_no_download_when_local_font_loads (env : FontEnv)
    (h : (localFontsLoop env [] env.font_paths).1 = true) :
    initialize_fonts env = (true, []) := by
  simp [initialize_fonts, h]

/-- An environment in which every configured local font path exists and
registers. -/
def localFontsEnv : FontEnv :=
  { noLocalFontsEnv with pathExists := fun _ => true }

theorem initialize_fonts_no_download_when_local_font_loads_witness :
    (localFontsLoop localFontsEnv [] localFontsEnv.font_paths).1 = true ∧
      initialize_fonts localFontsEnv = (true, []) :=
  ⟨by decide,
    initialize_fonts_no_download_when_local_font_loads localFontsEnv
      (by decide)⟩

/-- Claim C9: for every non-empty source text, `ScriptShaper.shape` is
deterministic and pure: two calls with the same input — here, calls on any
two processor instances, whatever hidden per-instance state they carry —
yield identical display text. -/
theorem shape_deterministic (p q : ArabicTextProcessor) (t : String)
    (_h : t ≠ "") : p.shape t = q.shape t := rfl

theorem shape_deterministic_witness :
    ("كتاب" : String) ≠ "" ∧
      ArabicTextProcessor.shape ⟨[]⟩ "كتاب" =
        ArabicTextProcessor.shape ⟨["earlier call"]⟩ "كتاب" :=
  ⟨by decide,
    shape_deterministic ⟨[]⟩ ⟨["earlier call"]⟩ "كتاب" (by decide)⟩

/-! ### Association-list lookup lemmas for the config merge -/

theorem jLookup_append_left {a : List (String × JValue)} {k : String}
    {v : JValue} (h : jLookup a k = some v) (b : List (String × JValue)) :
    jLookup (a ++ b) k = some v := by
  induction a with
  | nil => simp [jLookup] at h
  | cons kv m ih =>
    by_cases hk : kv.1 = k
    · simpa [jLookup, hk] using h
    · rw [List.cons_append, jLookup, if_neg hk]
      exact ih (by rwa [jLookup, if_neg hk] at h)

theorem jLookup_append_right {a : List (String × JValue)} {k : String}
    (h : jLookup a k = none) (b : List (String × JValue)) :
    jLookup (a ++ b) k = jLookup b k := by
  induction a with
  | nil => rfl
  | cons kv m ih =>
    by_cases hk : kv.1 = k
    · simp [jLookup, hk] at h
    · rw [List.cons_append, jLookup, if_neg hk]
      exact ih (by rwa [jLookup, if_neg hk] at h)

theorem jLookup_override (d l : List (String × JValue)) (k : String) :
    jLookup (d.map fun kv => (kv.1, (jLookup l kv.1).getD kv.2)) k =
      (jLookup d k).map fun v => (jLookup l k).getD v := by
  induction d with
  | nil => rfl
  | cons kv m ih =>
    by_cases hk : kv.1 = k
    · subst hk; simp [jLookup]
    · simp only [List.map_cons, jLookup, if_neg hk, ih]

theorem jLookup_of_mem {l : List (String × JValue)} {k : String}
    {v : JValue} (hmem : (k, v) ∈ l)
    (hnd : (l.map Prod.fst).Nodup) : jLookup l k = some v := by
  induction l with
  | nil => simp at hmem
  | cons kv m ih =>
    rw [List.map_cons, List.nodup_cons] at hnd
    rcases List.mem_cons.mp hmem with h | h
    · rw [← h, jLookup, if_pos rfl]
    · have hk : kv.1 ≠ k := by
        intro he
        exact hnd.1 (he ▸ List.mem_map_of_mem Prod.fst h)
      rw [jLookup, if_neg hk]
      exact ih h hnd.2

theorem jLookup_eq_none {l : List (String × JValue)} {k : String}
    (h : k ∉ l.map Prod.fst) : jLookup l k = none := by
  induction l with
  | nil => rfl
  | cons kv m ih =>
    rw [List.map_cons, List.mem_cons] at h
    push_neg at h
    rw [jLookup, if_neg (fun he => h.1 he.symm)]
    exact ih h.2

theorem jLookup_filter_of_true {l : List (String × JValue)} {k : String}
    {q : String → Bool} (hq : q k = true) :
    jLookup (l.filter fun kv => q kv.1) k = jLookup l k := by
  induction l with
  | nil => rfl
  | cons kv m ih =>
    by_cases hk : kv.1 = k
    · rw [List.filter_cons, if_pos (by simp [hk, hq]), jLookup, if_pos hk,
        jLookup, if_pos hk]
    · rw [List.filter_cons]
      by_cases hqk : q kv.1 = true
      · rw [if_pos (by simp [hqk]), jLookup, if_neg hk, jLookup, if_neg hk, ih]
      · rw [if_neg (by simp [hqk]), jLookup, if_neg hk, ih]

theorem jLookup_filter_of_none {l : List (String × JValue)} {k : String}
    (p : String × JValue → Bool) (h : jLookup l k = none) :
    jLookup (l.filter p) k = none := by
  induction l with
  | nil => rfl
  | cons kv m ih =>
    by_cases hk : kv.1 = k
    · simp [jLookup, hk] at h
    · rw [jLookup, if_neg hk] at h
      rw [List.filter_cons]
      by_cases hp : p kv = true
      · rw [if_pos (by simp [hp]), jLookup, if_neg hk]
        exact ih h
      · rw [if_neg (by simp [hp])]
        exact ih h

/-- Claim C10: `ConfigManager.load_config` merges the loaded file over the
defaults shallowly: for every well-formed (duplicate-free) loaded config,
any top-level key present in the file wholly replaces the default value
for that key — its bound value is exactly the file's value, so unlisted
sub-keys of a default nested dict are absent — while top-level keys absent
from the file keep their default values. -/
theorem load_config_shallow_merge (loaded : List (String × JValue))
    (hnd : (loaded.map Prod.fst).Nodup) :
    (∀ k v, (k, v) ∈ loaded →
        jLookup (load_config true (some loaded)) k = some v) ∧
      (∀ k, k ∉ loaded.map Prod.fst →
        jLookup (load_config true (some loaded)) k =
          jLookup default_config k) := by
  have hconf : load_config true (some loaded) =
      pyMerge default_config loaded := rfl
  constructor
  · intro k v hmem
    have hl : jLookup loaded k = some v := jLookup_of_mem hmem hnd
    rw [hconf]; unfold pyMerge
    cases hd : jLookup default_config k with
    | some v0 =>
      apply jLookup_append_left
      rw [jLookup_override, hd]; simp [hl]
    | none =>
      rw [jLookup_append_right (by rw [jLookup_override, hd]; rfl)]
      rw [jLookup_filter_of_true (q := fun s =>
        (jLookup default_config s).isNone) (by simp [hd])]
      exact hl
  · intro k hk
    have hl : jLookup loaded k = none := jLookup_eq_none hk
    rw [hconf]; unfold pyMerge
    cases hd : jLookup default_config k with
    | some v0 =>
      have h1 : jLookup (default_config.map fun kv =>
          (kv.1, (jLookup loaded kv.1).getD kv.2)) k = some v0 := by
        rw [jLookup_override, hd]; simp [hl]
      rw [jLookup_append_left h1]
    | none =>
      have h1 : jLookup (default_config.map fun kv =>
          (kv.1, (jLookup loaded kv.1).getD kv.2)) k = none := by
        rw [jLookup_override, hd]; rfl
      rw [jLookup_append_right h1, jLookup_filter_of_none _ hl]

/-- A loaded `config.json` that rebinds `translation` to a dict listing
only `retries`, and adds a new top-level key. -/
def sampleLoadedConfig : List (String × JValue) :=
  [("translation", .obj [("retries", .num 5)]), ("worker_count", .num 8)]

theorem load_config_shallow_merge_witness :
    (sampleLoadedConfig.map Prod.fst).Nodup ∧
      jLookup (load_config true (some sampleLoadedConfig)) "translation" =
        some (.obj [("retries", .num 5)]) ∧
      jLookup (load_config true (some sampleLoadedConfig)) "output" =
        jLookup default_config "output" := by
  have hnd : (sampleLoadedConfig.map Prod.fst).Nodup := by decide
  refine ⟨hnd, ?_, ?_⟩
  · exact (load_config_shallow_merge sampleLoadedConfig hnd).1
      "translation" _ (List.Mem.head _)
  · exact (load_config_shallow_merge sampleLoadedConfig hnd).2
      "output" (by decide)

/-! ### Scheduler lemmas -/

theorem countP_take_mono (l : List TextUnit) (p : TextUnit → Bool)
    {i j : Nat} (hij : i ≤ j) :
    (l.take i).countP p ≤ (l.take j).countP p := by
  rw [show j = i + (j - i) by omega, List.take_add, List.countP_append]
  omega

theorem unitOrdinal_lt_of_lt (units : List TextUnit) {i j : Nat}
    (hij : i < j) (hj : j < units.length)
    (hpage : (units.getD i default).page_index =
      (units.getD j default).page_index) :
    unitOrdinal units i < unitOrdinal units j := by
  have hi : i < units.length := lt_trans hij hj
  unfold unitOrdinal
  rw [hpage]
  have hpi : units[i].page_index = (units.getD j default).page_index := by
    rw [← List.getD_eq_getElem units default hi]; exact hpage
  have hstep : (units.take (i + 1)).countP
      (fun v => v.page_index == (units.getD j default).page_index) =
      (units.take i).countP
        (fun v => v.page_index == (units.getD j default).page_index) + 1 := by
    rw [List.take_succ, List.countP_append, List.getElem?_eq_getElem hi]
    simp [List.countP_cons, hpi]
  have hmono := countP_take_mono units
    (fun v => v.page_index == (units.getD j default).page_index)
    (show i + 1 ≤ j by omega)
  omega

/-- Claim C1: for every sequence of extracted TextUnits and every behavior
of the translation step, `TranslationScheduler.run` yields exactly one
`TranslationResult` per submitted unit: as many results as units, with
pairwise-distinct unit identities (no unit dropped, none duplicated), and
the i-th result carries the i-th unit's translation — its own
`source_text` whenever that unit's translation errors. -/
theorem scheduler_run_one_result_per_unit
    (translate : TextUnit → Option (String × Bool))
    (units : List TextUnit) :
    (TranslationScheduler.run translate units).length = units.length ∧
      ((TranslationScheduler.run translate units).map
          TranslationResult.resultId).Nodup ∧
      (TranslationScheduler.run translate units).map
          (fun r => r.translated_text) =
        units.map (fun u =>
          match translate u with
          | some tv => tv.1
          | none => u.source_text) := by
  refine ⟨by simp [TranslationScheduler.run], ?_, ?_⟩
  · have hmap : (TranslationScheduler.run translate units).map
        TranslationResult.resultId =
        (List.range units.length).map fun i =>
          ((units.getD i default).page_index, unitOrdinal units i) := by
      rw [TranslationScheduler.run, List.map_map]
      apply List.map_congr_left
      intro i _
      cases h : translate (units[i]?.getD default) <;>
        simp [Function.comp, TranslationResult.resultId, List.getD, h]
    rw [hmap]
    apply List.Nodup.map_on ?_ (List.nodup_range _)
    intro x hx y hy hxy
    rw [List.mem_range] at hx hy
    have h1 : (units.getD x default).page_index =
        (units.getD y default).page_index := congrArg Prod.fst hxy
    have h2 : unitOrdinal units x = unitOrdinal units y :=
      congrArg Prod.snd hxy
    by_contra hne
    rcases Nat.lt_or_ge x y with hlt | hge
    · exact absurd h2 (Nat.ne_of_lt (unitOrdinal_lt_of_lt units hlt hy h1))
    · have hlt' : y < x := by omega
      exact absurd h2.symm
        (Nat.ne_of_lt (unitOrdinal_lt_of_lt units hlt' hx h1.symm))
  · apply List.ext_getElem
    · simp [TranslationScheduler.run]
    · intro n h1 h2
      have hn : n < units.length := by
        simpa using h2
      simp only [TranslationScheduler.run, List.getElem_map,
        List.getElem_range, List.getD_eq_getElem units default hn]
      cases h : translate units[n] <;> simp [h]

end PdfTranslate
